import Mathlib

/-!
Shallow embedding of the audio pipeline in `src/utils/audioUtils.ts`:
the base64 decoder `decode`, the PCM-to-AudioBuffer converter
`decodeAudioData`, and the WAV encoder `createWavBlob`, together with
theorems about them.

Modelling conventions:
* A JS `Uint8Array` is a view on an underlying `ArrayBuffer`; it is modelled
  by `Uint8ArrayView` (underlying buffer contents, byte offset, view length).
  Byte values stored in a `Uint8Array` are always in `[0, 256)`; writes store
  the value mod 256, which the model mirrors where relevant.
* JS strings are modelled as lists of UTF-16 code units (`List ℕ`).
* JS numbers appearing here are either integers (modelled as `ℕ`/`ℤ`) or
  exact binary fractions of the form `v / 32768` with `v` a 16-bit integer,
  which IEEE-754 doubles and singles represent exactly; they are modelled
  as `ℚ`.
* Machine integer wrap-around is explicit: `DataView.setUint16`/`setUint32`
  reduce their argument mod `2^16`/`2^32` before storing little-endian bytes.
-/

/-- Errors thrown by the platform primitives used in `audioUtils.ts`. -/
inductive JsError where
  | rangeError
  | invalidCharacterError
  | notSupportedError
deriving DecidableEq, Repr

/-! ## Uint8Array views -/

/-- A JS `Uint8Array`: a view of `length` bytes starting at `byteOffset`
into an underlying `ArrayBuffer` whose bytes are `buffer`. -/
structure Uint8ArrayView where
  buffer : List ℕ
  byteOffset : ℕ
  length : ℕ
deriving DecidableEq, Repr

/-- A freshly allocated `Uint8Array` covering its whole buffer
(`new Uint8Array(n)` filled with the given bytes): offset 0, full length. -/
def mkUint8Array (bytes : List ℕ) : Uint8ArrayView :=
  ⟨bytes, 0, bytes.length⟩

/-- The bytes visible through the view (element reads `v[i]`). -/
def viewToList (v : Uint8ArrayView) : List ℕ :=
  (v.buffer.drop v.byteOffset).take v.length

/-! ## DataView little-endian writes -/

/-- Bytes stored by `DataView.setUint16(_, v, true)`: the value is reduced
mod `2^16` (WebIDL `ToUint16`) and stored as two little-endian bytes. -/
def setUint16le (v : ℕ) : List ℕ :=
  [v % 65536 % 256, v % 65536 / 256]

/-- Bytes stored by `DataView.setUint32(_, v, true)`: the value is reduced
mod `2^32` (WebIDL `ToUint32`) and stored as four little-endian bytes. -/
def setUint32le (v : ℕ) : List ℕ :=
  [v % 4294967296 % 256, v % 4294967296 / 256 % 256,
   v % 4294967296 / 65536 % 256, v % 4294967296 / 16777216]

/-- Read back a 16-bit little-endian value at byte offset `off`. -/
def readLE2 (l : List ℕ) (off : ℕ) : ℕ :=
  l.getD off 0 + 256 * l.getD (off + 1) 0

/-- Read back a 32-bit little-endian value at byte offset `off`. -/
def readLE4 (l : List ℕ) (off : ℕ) : ℕ :=
  l.getD off 0 + 256 * l.getD (off + 1) 0 + 65536 * l.getD (off + 2) 0 +
    16777216 * l.getD (off + 3) 0

/-! ## WAV encoder (`createWavBlob`) -/

/-- The 44-byte RIFF/WAVE header written by `createWavBlob`, field by field
in source order; the string literals are the `charCodeAt` values of
`RIFF`, `WAVE`, `fmt ` and `data`, and `bitsPerSample / 8 = 2`. -/
def wavHeader (dataSize sampleRate numChannels : ℕ) : List ℕ :=
  [82, 73, 70, 70] ++
  setUint32le (36 + dataSize) ++
  [87, 65, 86, 69] ++
  [102, 109, 116, 32] ++
  setUint32le 16 ++
  setUint16le 1 ++
  setUint16le numChannels ++
  setUint32le sampleRate ++
  setUint32le (sampleRate * numChannels * 2) ++
  setUint16le (numChannels * 2) ++
  setUint16le 16 ++
  [100, 97, 116, 97] ++
  setUint32le dataSize

/-- `createWavBlob(pcmData, sampleRate, numChannels)`: allocates a buffer of
`44 + pcmData.length` bytes, writes the header, then copies
`dataSize = pcmData.length` bytes taken from `new Uint8Array(pcmData.buffer)`,
i.e. from offset 0 of the view's underlying buffer (not through the view).
The result is the byte contents of the returned `Blob`. -/
def createWavBlob (pcmData : Uint8ArrayView) (sampleRate numChannels : ℕ) : List ℕ :=
  wavHeader pcmData.length sampleRate numChannels ++
    pcmData.buffer.take pcmData.length

/-! ## PCM-to-AudioBuffer converter (`decodeAudioData`) -/

/-- Signed 16-bit little-endian value of a byte pair, as read by an
`Int16Array` element access on a (little-endian) platform.  Stored bytes are
8-bit, hence the `% 256`. -/
def toSigned16 (lo hi : ℕ) : ℤ :=
  if lo % 256 + 256 * (hi % 256) < 32768 then ((lo % 256 + 256 * (hi % 256) : ℕ) : ℤ)
  else ((lo % 256 + 256 * (hi % 256) : ℕ) : ℤ) - 65536

/-- Element sequence of `new Int16Array(buffer)`: consecutive byte pairs of
the underlying buffer read as signed 16-bit little-endian integers.  (The
constructor itself additionally rejects odd byte lengths; `decodeAudioData`
models that check explicitly.) -/
def bytesToInt16s : List ℕ → List ℤ
  | lo :: hi :: rest => toSigned16 lo hi :: bytesToInt16s rest
  | _ => []

/-- The audio buffer produced by the audio context: channel count, frame
count, sample rate and per-channel sample data. -/
structure AudioBufferModel where
  numberOfChannels : ℕ
  frames : ℕ
  sampleRate : ℕ
  channelData : List (List ℚ)
deriving DecidableEq, Repr

/-- Model of `AudioContext.createBuffer(numberOfChannels, length, sampleRate)`
for a conformant context.  The `length` argument is a JS number (possibly
fractional: `decodeAudioData` passes `dataInt16.length / numChannels`); WebIDL
converts it to `unsigned long` by truncation toward zero (no `[EnforceRange]`
in the Web Audio IDL), modelled by `⌊·⌋₊` (the `mod 2^32` of that conversion
is unreachable for any realizable typed-array length and is omitted).  A
`NotSupportedError` is thrown when the channel count or the converted length
is zero; the nominal sample-rate range is implementation-defined and the
modelled context accepts any rate (the rate never affects buffer contents).
Channel data starts out zero-filled. -/
def ctx_createBuffer (numberOfChannels : ℕ) (reqLength : ℚ) (sampleRate : ℕ) :
    Except JsError AudioBufferModel :=
  let len := ⌊reqLength⌋₊
  if numberOfChannels = 0 ∨ len = 0 then .error .notSupportedError
  else .ok ⟨numberOfChannels, len, sampleRate,
    List.replicate numberOfChannels (List.replicate len 0)⟩

/-- The float written by `channelData[i] = dataInt16[idx] / 32768.0`.  The
quotient of a 16-bit integer by `2^15` is an exact binary fraction, so `ℚ`
models the float arithmetic exactly.  An out-of-bounds `dataInt16[idx]` read
yields `undefined` (hence NaN) in JS; every loop iteration performing such a
read also performs an out-of-bounds `channelData[i]` write, which a typed
array discards, so the default value used here is never observable
(`channelLoop_eq_map` below makes this precise). -/
def jsSampleAt (samples : List ℤ) (idx : ℕ) : ℚ :=
  ((samples.getD idx 0 : ℤ) : ℚ) / 32768

/-- The inner copy loop of `decodeAudioData` for one channel `c`:
`for (i = 0; i < frameCount; i++) channelData[i] = dataInt16[i*numChannels+c]/32768`.
With a fractional loop bound `frameCount` the loop body runs for every
natural `i < frameCount`, i.e. `⌈frameCount⌉₊` times, which is the `T` passed
in; a `List.set` out of bounds is a no-op, exactly like a typed-array write. -/
def channelLoop (samples : List ℤ) (numCh c T : ℕ) (acc : List ℚ) : List ℚ :=
  (List.range T).foldl (fun a i => a.set i (jsSampleAt samples (i * numCh + c))) acc

/-- The `frameCount` computed by `decodeAudioData`:
`dataInt16.length / numChannels` with JS number division (exact, possibly
fractional — there is no flooring in the source).  `dataInt16` is a view of
the input's whole underlying buffer. -/
def frameCountOf (data : Uint8ArrayView) (numChannels : ℕ) : ℚ :=
  ((bytesToInt16s data.buffer).length : ℚ) / (numChannels : ℚ)

/-- `decodeAudioData(data, ctx, sampleRate = 24000, numChannels = 1)`:
constructs `new Int16Array(data.buffer)` over the input's whole underlying
buffer (throwing a `RangeError` when the buffer's byte length is odd),
computes `frameCount = dataInt16.length / numChannels`, asks the context for
a buffer of that (possibly fractional) length, and fills each channel with
the interleaved samples normalized by `1/32768`. -/
def decodeAudioData (data : Uint8ArrayView) (sampleRate numChannels : ℕ) :
    Except JsError AudioBufferModel :=
  if data.buffer.length % 2 ≠ 0 then .error .rangeError
  else
    let samples := bytesToInt16s data.buffer
    let frameCount := frameCountOf data numChannels
    (ctx_createBuffer numChannels frameCount sampleRate).map fun buffer =>
      ⟨buffer.numberOfChannels, buffer.frames, buffer.sampleRate,
       (List.range numChannels).map fun c =>
         channelLoop samples numChannels c ⌈frameCount⌉₊ (buffer.channelData.getD c [])⟩

/-! ## Base64 decoder (`decode`) -/

/-- ASCII whitespace, stripped by the WHATWG forgiving-base64 decoder
underlying `atob`. -/
def isB64Whitespace (c : ℕ) : Bool :=
  c = 9 || c = 10 || c = 12 || c = 13 || c = 32

/-- Sextet value of a base64 alphabet code unit (A–Z, a–z, 0–9, +, /);
`none` for a code unit outside the alphabet. -/
def charToSextet (c : ℕ) : Option ℕ :=
  if 65 ≤ c ∧ c ≤ 90 then some (c - 65)
  else if 97 ≤ c ∧ c ≤ 122 then some (c - 71)
  else if 48 ≤ c ∧ c ≤ 57 then some (c + 4)
  else if c = 43 then some 62
  else if c = 47 then some 63
  else none

/-- Strip at most two trailing `=` (code unit 61) padding characters, only
when the length is a multiple of 4, per WHATWG forgiving-base64 step 2. -/
def stripB64Padding (s : List ℕ) : List ℕ :=
  if s.length % 4 ≠ 0 then s
  else if s.getLast? = some 61 then
    if s.dropLast.getLast? = some 61 then s.dropLast.dropLast else s.dropLast
  else s

/-- Map every code unit to its sextet, failing on a character outside the
base64 alphabet. -/
def sextetsOfChars : List ℕ → Option (List ℕ)
  | [] => some []
  | c :: rest =>
    match charToSextet c, sextetsOfChars rest with
    | some d, some ds => some (d :: ds)
    | _, _ => none

/-- Reassemble bytes from sextets: each full group of 4 sextets yields 3
bytes; a final group of 2 or 3 sextets yields 1 or 2 bytes, the trailing
bits being discarded (WHATWG forgiving-base64).  A final group of 1 sextet
cannot reach this function (`atob` rejects lengths ≡ 1 mod 4). -/
def bytesOfSextets : List ℕ → List ℕ
  | a :: b :: c :: d :: rest =>
    (a * 4 + b / 16) :: (b % 16 * 16 + c / 4) :: (c % 4 * 64 + d) :: bytesOfSextets rest
  | [a, b] => [a * 4 + b / 16]
  | [a, b, c] => [a * 4 + b / 16, b % 16 * 16 + c / 4]
  | _ => []

/-- The platform `atob`, per WHATWG forgiving-base64: strip ASCII
whitespace, strip `=` padding, reject a length ≡ 1 mod 4 or any character
outside the alphabet (`InvalidCharacterError`), then reassemble the bytes.
Input and output strings are modelled as lists of code units. -/
def atob (s : List ℕ) : Except JsError (List ℕ) :=
  let t := stripB64Padding (s.filter fun c => ! isB64Whitespace c)
  if t.length % 4 = 1 then .error .invalidCharacterError
  else
    match sextetsOfChars t with
    | some ds => .ok (bytesOfSextets ds)
    | none => .error .invalidCharacterError

/-- `decode(base64)` from the source: run `atob`, then fill a fresh
`Uint8Array` with `charCodeAt` of each character of the binary string (the
typed-array store keeps the value mod 256; `atob` outputs are below 256, so
this is the identity there). -/
def decode (base64 : List ℕ) : Except JsError Uint8ArrayView :=
  (atob base64).map fun binaryString => mkUint8Array (binaryString.map (· % 256))

/-- Base64 alphabet code unit of a sextet. -/
def sextetToChar (d : ℕ) : ℕ :=
  if d < 26 then 65 + d
  else if d < 52 then 71 + d
  else if d < 62 then d - 4
  else if d = 62 then 43
  else 47

/-- The sextet stream of a byte sequence: big-endian bit order within each
3-byte group, with a short final group of 1 or 2 bytes contributing 2 or 3
sextets (low bits zero). -/
def bytesToSextets : List ℕ → List ℕ
  | a :: b :: c :: rest =>
    (a / 4) :: (a % 4 * 16 + b / 16) :: (b % 16 * 4 + c / 64) :: (c % 64) :: bytesToSextets rest
  | [a, b] => [a / 4, a % 4 * 16 + b / 16, b % 16 * 4]
  | [a] => [a / 4, a % 4 * 16]
  | [] => []

/-- Modelled from the spec: the reference base64 encoder the spec's
round-trip property uses for test setup (it is not part of the repository).
Standard RFC 4648 base64: alphabet characters for the sextet stream,
`=`-padded to a multiple of 4. -/
def base64Encode (bytes : List ℕ) : List ℕ :=
  let chars := (bytesToSextets bytes).map sextetToChar
  if chars.length % 4 = 2 then chars ++ [61, 61]
  else if chars.length % 4 = 3 then chars ++ [61]
  else chars

/-! ## Heap-level model of `decodeAudioData` (for purity / non-mutation) -/

/-- The fragment of the JS heap a `decodeAudioData` call can reach: byte
arrays (`ArrayBuffer`/`Uint8Array` objects) and float arrays
(`Float32Array` channel storage), addressed by index. -/
structure JsHeap where
  byteArrays : List (List ℕ)
  floatArrays : List (List ℚ)
deriving DecidableEq, Repr

/-- An audio buffer as an object graph: its channel data are references
into the heap's float arrays. -/
structure AudioBufferRef where
  numberOfChannels : ℕ
  frames : ℕ
  sampleRate : ℕ
  channelRefs : List ℕ
deriving DecidableEq, Repr

/-- One iteration of the outer channel loop on the heap: fetch
`channelData = buffer.getChannelData(c)` (the float array at `ref`) and run
the inner copy loop on it in place. -/
def writeChannel (samples : List ℤ) (numCh T : ℕ) (h : JsHeap) (ref c : ℕ) : JsHeap :=
  ⟨h.byteArrays,
   h.floatArrays.set ref (channelLoop samples numCh c T (h.floatArrays.getD ref []))⟩

/-- `decodeAudioData` acting on the heap, statement for statement: the input
is a reference to a byte array; `ctx.createBuffer` allocates fresh
zero-filled channel arrays at the end of the float-array store (the Web
Audio `AudioBuffer` owns fresh storage; `getChannelData(c)` returns the
`c`-th of the new arrays); the copy loops then mutate only those arrays. -/
def decodeAudioDataHeap (h : JsHeap) (dataRef sampleRate numChannels : ℕ) :
    Except JsError (JsHeap × AudioBufferRef) :=
  let data := h.byteArrays.getD dataRef []
  if data.length % 2 ≠ 0 then .error .rangeError
  else
    let samples := bytesToInt16s data
    let frameCount : ℚ := (samples.length : ℚ) / (numChannels : ℚ)
    let len := ⌊frameCount⌋₊
    if numChannels = 0 ∨ len = 0 then .error .notSupportedError
    else
      let base := h.floatArrays.length
      let h1 : JsHeap :=
        ⟨h.byteArrays, h.floatArrays ++ List.replicate numChannels (List.replicate len 0)⟩
      let h2 := (List.range numChannels).foldl
        (fun hh c => writeChannel samples numChannels ⌈frameCount⌉₊ hh (base + c) c) h1
      .ok (h2, ⟨numChannels, len, sampleRate, (List.range numChannels).map (base + ·)⟩)

/-- The observable outcome of a heap-level decode: the error, or the buffer
parameters together with the channel contents read back from the final
heap. -/
def observeDecode (h : JsHeap) (dataRef sampleRate numChannels : ℕ) :
    Except JsError (ℕ × ℕ × ℕ × List (List ℚ)) :=
  (decodeAudioDataHeap h dataRef sampleRate numChannels).map fun r =>
    (r.2.numberOfChannels, r.2.frames, r.2.sampleRate,
     r.2.channelRefs.map fun ref => r.1.floatArrays.getD ref [])

/-- Decidable equality on `Except`, so concrete runs of the embedded
functions can be checked by `decide`. -/
instance {ε α : Type} [DecidableEq ε] [DecidableEq α] : DecidableEq (Except ε α) := fun a b =>
  match a, b with
  | .ok x, .ok y =>
    if h : x = y then isTrue (by rw [h]) else isFalse (fun he => h (Except.ok.inj he))
  | .error x, .error y =>
    if h : x = y then isTrue (by rw [h]) else isFalse (fun he => h (Except.error.inj he))
  | .ok _, .error _ => isFalse (fun he => Except.noConfusion he)
  | .error _, .ok _ => isFalse (fun he => Except.noConfusion he)

theorem wavHeader_length (dataSize sampleRate numChannels : ℕ) :
    (wavHeader dataSize sampleRate numChannels).length = 44 := by
  simp [wavHeader, setUint32le, setUint16le]

theorem createWavBlob_drop_44 (pcmData : Uint8ArrayView) (sampleRate numChannels : ℕ) :
    (createWavBlob pcmData sampleRate numChannels).drop 44 =
      pcmData.buffer.take pcmData.length := by
  have h := wavHeader_length pcmData.length sampleRate numChannels
  rw [createWavBlob, ← h, List.drop_left]

theorem toSigned16_bounds (lo hi : ℕ) :
    -32768 ≤ toSigned16 lo hi ∧ toSigned16 lo hi ≤ 32767 := by
  unfold toSigned16
  split <;> omega

theorem bytesToInt16s_length : ∀ l : List ℕ, (bytesToInt16s l).length = l.length / 2
  | [] => rfl
  | [_] => by simp [bytesToInt16s]
  | lo :: hi :: rest => by
    simp only [bytesToInt16s, List.length_cons, bytesToInt16s_length rest]
    omega

theorem bytesToInt16s_mem_bounds :
    ∀ (l : List ℕ), ∀ x ∈ bytesToInt16s l, -32768 ≤ x ∧ x ≤ 32767
  | [], x, hx => by simp [bytesToInt16s] at hx
  | [_], x, hx => by simp [bytesToInt16s] at hx
  | lo :: hi :: rest, x, hx => by
    rcases List.mem_cons.mp hx with h' | h'
    · rw [h']; exact toSigned16_bounds lo hi
    · exact bytesToInt16s_mem_bounds rest x h'

theorem bytesToInt16s_getD_bounds (l : List ℕ) (idx : ℕ) :
    -32768 ≤ (bytesToInt16s l).getD idx 0 ∧ (bytesToInt16s l).getD idx 0 ≤ 32767 := by
  rcases h : (bytesToInt16s l)[idx]? with - | x
  · simp [List.getD_eq_getElem?_getD, h]
  · have hmem : x ∈ bytesToInt16s l := List.getElem?_mem h
    have hb := bytesToInt16s_mem_bounds l x hmem
    simp [List.getD_eq_getElem?_getD, h, hb]

theorem channelLoop_length (samples : List ℤ) (numCh c : ℕ) :
    ∀ (T : ℕ) (acc : List ℚ), (channelLoop samples numCh c T acc).length = acc.length := by
  intro T
  induction T with
  | zero => intro acc; rfl
  | succ T ih =>
    intro acc
    unfold channelLoop at *
    rw [List.range_succ, List.foldl_append]
    simp only [List.foldl_cons, List.foldl_nil]
    rw [List.length_set, ih]

theorem channelLoop_getElem? (samples : List ℤ) (numCh c : ℕ) :
    ∀ (T : ℕ) (acc : List ℚ) (j : ℕ),
      (channelLoop samples numCh c T acc)[j]? =
        if j < T ∧ j < acc.length then some (jsSampleAt samples (j * numCh + c))
        else acc[j]? := by
  intro T
  induction T with
  | zero =>
    intro acc j
    simp [channelLoop]
  | succ T ih =>
    intro acc j
    have hlen : (channelLoop samples numCh c T acc).length = acc.length :=
      channelLoop_length samples numCh c T acc
    unfold channelLoop at *
    rw [List.range_succ, List.foldl_append]
    simp only [List.foldl_cons, List.foldl_nil]
    rcases eq_or_ne j T with rfl | hne
    · by_cases hj : j < acc.length
      · rw [List.getElem?_set_self (by rw [hlen]; exact hj)]
        simp [hj]
      · have hnone : ((List.foldl (fun a i => a.set i (jsSampleAt samples (i * numCh + c)))
            acc (List.range j)).set j (jsSampleAt samples (j * numCh + c)))[j]? = none :=
          List.getElem?_eq_none (by rw [List.length_set, hlen]; omega)
        rw [hnone, if_neg (by omega)]
        exact (List.getElem?_eq_none (by omega)).symm
    · rw [List.getElem?_set_ne (Ne.symm hne)]
      rw [ih acc j]
      rcases Nat.lt_or_ge j T with h | h
      · simp [h, Nat.lt_succ_of_lt h]
      · have h1 : ¬ j < T := Nat.not_lt.mpr h
        have h2 : ¬ j < T + 1 := by omega
        simp [h1, h2]

theorem channelLoop_eq_map (samples : List ℤ) (numCh c T L : ℕ) (hLT : L ≤ T) :
    channelLoop samples numCh c T (List.replicate L 0) =
      (List.range L).map (fun i => jsSampleAt samples (i * numCh + c)) := by
  apply List.ext_getElem?
  intro j
  rw [channelLoop_getElem?]
  rcases Nat.lt_or_ge j L with h | h
  · have hT : j < T := Nat.lt_of_lt_of_le h hLT
    rw [if_pos ⟨hT, by simpa using h⟩, List.getElem?_map, List.getElem?_range h]
    rfl
  · have h1 : ¬ (j < T ∧ j < (List.replicate L (0 : ℚ)).length) := by
      simp only [List.length_replicate]; omega
    rw [if_neg h1]
    have e1 : (List.replicate L (0 : ℚ))[j]? = none :=
      List.getElem?_eq_none (by simpa using h)
    have e2 : ((List.range L).map fun i => jsSampleAt samples (i * numCh + c))[j]? = none :=
      List.getElem?_eq_none (by simpa using h)
    rw [e1, e2]

theorem frameCountOf_floor (data : Uint8ArrayView) (numChannels : ℕ) :
    ⌊frameCountOf data numChannels⌋₊ =
      (bytesToInt16s data.buffer).length / numChannels := by
  unfold frameCountOf
  rw [Nat.floor_div_nat, Nat.floor_natCast]

/-- Successful run of `decodeAudioData`: even byte length, nonzero channel
count and a nonzero truncated frame count yield a buffer whose channel `c`
holds the interleaved samples at `i * numChannels + c`, normalized. -/
theorem decodeAudioData_ok (data : Uint8ArrayView) (sampleRate numChannels : ℕ)
    (h2 : data.buffer.length % 2 = 0) (hch : numChannels ≠ 0)
    (hL : (bytesToInt16s data.buffer).length / numChannels ≠ 0) :
    decodeAudioData data sampleRate numChannels =
      .ok ⟨numChannels, (bytesToInt16s data.buffer).length / numChannels, sampleRate,
        (List.range numChannels).map fun c =>
          (List.range ((bytesToInt16s data.buffer).length / numChannels)).map
            fun i => jsSampleAt (bytesToInt16s data.buffer) (i * numChannels + c)⟩ := by
  have hfloor := frameCountOf_floor data numChannels
  have hceil : (bytesToInt16s data.buffer).length / numChannels ≤
      ⌈frameCountOf data numChannels⌉₊ := by
    rw [← hfloor]; exact Nat.floor_le_ceil _
  simp only [decodeAudioData, ctx_createBuffer, hfloor, h2, ne_eq, not_true_eq_false,
    if_false, hch, hL, false_or, or_self, if_true, Except.map_ok, Except.map]
  congr 1
  refine AudioBufferModel.mk.injEq _ _ _ _ _ _ _ _ ▸ ⟨rfl, rfl, rfl, ?_⟩
  apply List.map_congr_left
  intro c hc
  have hclt : c < numChannels := List.mem_range.mp hc
  rw [List.getD_eq_getElem?_getD, List.getElem?_replicate, if_pos hclt]
  exact channelLoop_eq_map _ _ _ _ _ hceil

/-- An odd underlying byte length makes the `Int16Array` constructor throw. -/
theorem decodeAudioData_oddLength (data : Uint8ArrayView) (sampleRate numChannels : ℕ)
    (h : data.buffer.length % 2 = 1) :
    decodeAudioData data sampleRate numChannels = .error .rangeError := by
  unfold decodeAudioData
  rw [if_pos (by omega)]

/-- A zero channel count or a zero truncated frame count makes
`createBuffer` throw. -/
theorem decodeAudioData_notSupported (data : Uint8ArrayView) (sampleRate numChannels : ℕ)
    (h2 : data.buffer.length % 2 = 0)
    (h : numChannels = 0 ∨ (bytesToInt16s data.buffer).length / numChannels = 0) :
    decodeAudioData data sampleRate numChannels = .error .notSupportedError := by
  have hfloor := frameCountOf_floor data numChannels
  simp only [decodeAudioData, ctx_createBuffer, hfloor, h2, ne_eq, not_true_eq_false,
    if_false]
  rw [if_pos h]
  rfl

theorem readLE4_cons4 (x0 x1 x2 x3 : ℕ) (rest : List ℕ) :
    readLE4 (x0 :: x1 :: x2 :: x3 :: rest) 0 = x0 + 256 * x1 + 65536 * x2 + 16777216 * x3 :=
  rfl

theorem readLE2_cons2 (x0 x1 : ℕ) (rest : List ℕ) :
    readLE2 (x0 :: x1 :: rest) 0 = x0 + 256 * x1 :=
  rfl

theorem getD_append_shift (pre l : List ℕ) (off i : ℕ) (hoff : pre.length = off) :
    (pre ++ l).getD (off + i) 0 = l.getD i 0 := by
  rw [List.getD_eq_getElem?_getD, List.getD_eq_getElem?_getD,
    List.getElem?_append_right (by omega)]
  have e : off + i - pre.length = i := by omega
  rw [e]

theorem readLE4_append (pre l : List ℕ) (off : ℕ) (hoff : pre.length = off) :
    readLE4 (pre ++ l) off = readLE4 l 0 := by
  unfold readLE4
  have e0 := getD_append_shift pre l off 0 hoff
  rw [Nat.add_zero] at e0
  rw [e0, getD_append_shift pre l off 1 hoff, getD_append_shift pre l off 2 hoff,
    getD_append_shift pre l off 3 hoff]

theorem readLE2_append (pre l : List ℕ) (off : ℕ) (hoff : pre.length = off) :
    readLE2 (pre ++ l) off = readLE2 l 0 := by
  unfold readLE2
  have e0 := getD_append_shift pre l off 0 hoff
  rw [Nat.add_zero] at e0
  rw [e0, getD_append_shift pre l off 1 hoff]

theorem readLE4_setUint32le (v : ℕ) (l : List ℕ) (hv : v < 4294967296) :
    readLE4 (setUint32le v ++ l) 0 = v := by
  have e : setUint32le v ++ l = (v % 4294967296 % 256) :: (v % 4294967296 / 256 % 256) ::
      (v % 4294967296 / 65536 % 256) :: (v % 4294967296 / 16777216) :: l := rfl
  rw [e, readLE4_cons4]
  omega

theorem readLE2_setUint16le (v : ℕ) (l : List ℕ) (hv : v < 65536) :
    readLE2 (setUint16le v ++ l) 0 = v := by
  have e : setUint16le v ++ l = (v % 65536 % 256) :: (v % 65536 / 256) :: l := rfl
  rw [e, readLE2_cons2]
  omega

theorem drop_append_of_length (pre l : List ℕ) (n : ℕ) (h : pre.length = n) :
    (pre ++ l).drop n = l := by
  rw [← h, List.drop_left]

theorem wavBlob_riff (pcm : Uint8ArrayView) (sr ch : ℕ) :
    (createWavBlob pcm sr ch).take 4 = [82, 73, 70, 70] :=
  rfl

theorem wavBlob_chunkSize (pcm : Uint8ArrayView) (sr ch : ℕ)
    (hv : 36 + pcm.length < 4294967296) :
    readLE4 (createWavBlob pcm sr ch) 4 = 36 + pcm.length := by
  have hsplit : createWavBlob pcm sr ch =
      [82, 73, 70, 70] ++
      (setUint32le (36 + pcm.length) ++
        ([87,65,86,69] ++ [102,109,116,32] ++ setUint32le 16 ++ setUint16le 1 ++
         setUint16le ch ++ setUint32le sr ++ setUint32le (sr * ch * 2) ++
         setUint16le (ch * 2) ++ setUint16le 16 ++ [100,97,116,97] ++
         setUint32le pcm.length ++ pcm.buffer.take pcm.length)) := by
    simp [createWavBlob, wavHeader, List.append_assoc]
  rw [hsplit, readLE4_append _ _ _ (by simp), readLE4_setUint32le _ _ hv]

theorem wavBlob_wave (pcm : Uint8ArrayView) (sr ch : ℕ) :
    ((createWavBlob pcm sr ch).drop 8).take 4 = [87, 65, 86, 69] := by
  have hsplit : createWavBlob pcm sr ch =
      ([82, 73, 70, 70] ++ setUint32le (36 + pcm.length)) ++
      ([87,65,86,69] ++ ([102,109,116,32] ++ setUint32le 16 ++ setUint16le 1 ++
         setUint16le ch ++ setUint32le sr ++ setUint32le (sr * ch * 2) ++
         setUint16le (ch * 2) ++ setUint16le 16 ++ [100,97,116,97] ++
         setUint32le pcm.length ++ pcm.buffer.take pcm.length)) := by
    simp [createWavBlob, wavHeader, List.append_assoc]
  rw [hsplit, drop_append_of_length _ _ _ (by simp [setUint32le])]
  rfl

theorem wavBlob_fmtMarker (pcm : Uint8ArrayView) (sr ch : ℕ) :
    ((createWavBlob pcm sr ch).drop 12).take 4 = [102, 109, 116, 32] := by
  have hsplit : createWavBlob pcm sr ch =
      ([82, 73, 70, 70] ++ setUint32le (36 + pcm.length) ++ [87,65,86,69]) ++
      ([102,109,116,32] ++ (setUint32le 16 ++ setUint16le 1 ++
         setUint16le ch ++ setUint32le sr ++ setUint32le (sr * ch * 2) ++
         setUint16le (ch * 2) ++ setUint16le 16 ++ [100,97,116,97] ++
         setUint32le pcm.length ++ pcm.buffer.take pcm.length)) := by
    simp [createWavBlob, wavHeader, List.append_assoc]
  rw [hsplit, drop_append_of_length _ _ _ (by simp [setUint32le])]
  rfl

theorem wavBlob_subchunk1Size (pcm : Uint8ArrayView) (sr ch : ℕ) :
    readLE4 (createWavBlob pcm sr ch) 16 = 16 := by
  have hsplit : createWavBlob pcm sr ch =
      ([82, 73, 70, 70] ++ setUint32le (36 + pcm.length) ++ [87,65,86,69] ++
        [102,109,116,32]) ++
      (setUint32le 16 ++ (setUint16le 1 ++
         setUint16le ch ++ setUint32le sr ++ setUint32le (sr * ch * 2) ++
         setUint16le (ch * 2) ++ setUint16le 16 ++ [100,97,116,97] ++
         setUint32le pcm.length ++ pcm.buffer.take pcm.length)) := by
    simp [createWavBlob, wavHeader, List.append_assoc]
  rw [hsplit, readLE4_append _ _ _ (by simp [setUint32le]),
    readLE4_setUint32le _ _ (by norm_num)]

theorem wavBlob_audioFormat (pcm : Uint8ArrayView) (sr ch : ℕ) :
    readLE2 (createWavBlob pcm sr ch) 20 = 1 := by
  have hsplit : createWavBlob pcm sr ch =
      ([82, 73, 70, 70] ++ setUint32le (36 + pcm.length) ++ [87,65,86,69] ++
        [102,109,116,32] ++ setUint32le 16) ++
      (setUint16le 1 ++
        (setUint16le ch ++ setUint32le sr ++ setUint32le (sr * ch * 2) ++
         setUint16le (ch * 2) ++ setUint16le 16 ++ [100,97,116,97] ++
         setUint32le pcm.length ++ pcm.buffer.take pcm.length)) := by
    simp [createWavBlob, wavHeader, List.append_assoc]
  rw [hsplit, readLE2_append _ _ _ (by simp [setUint32le]),
    readLE2_setUint16le _ _ (by norm_num)]

theorem wavBlob_numChannels (pcm : Uint8ArrayView) (sr ch : ℕ) (hv : ch < 65536) :
    readLE2 (createWavBlob pcm sr ch) 22 = ch := by
  have hsplit : createWavBlob pcm sr ch =
      ([82, 73, 70, 70] ++ setUint32le (36 + pcm.length) ++ [87,65,86,69] ++
        [102,109,116,32] ++ setUint32le 16 ++ setUint16le 1) ++
      (setUint16le ch ++
        (setUint32le sr ++ setUint32le (sr * ch * 2) ++
         setUint16le (ch * 2) ++ setUint16le 16 ++ [100,97,116,97] ++
         setUint32le pcm.length ++ pcm.buffer.take pcm.length)) := by
    simp [createWavBlob, wavHeader, List.append_assoc]
  rw [hsplit, readLE2_append _ _ _ (by simp [setUint32le, setUint16le]),
    readLE2_setUint16le _ _ hv]

theorem wavBlob_sampleRate (pcm : Uint8ArrayView) (sr ch : ℕ) (hv : sr < 4294967296) :
    readLE4 (createWavBlob pcm sr ch) 24 = sr := by
  have hsplit : createWavBlob pcm sr ch =
      ([82, 73, 70, 70] ++ setUint32le (36 + pcm.length) ++ [87,65,86,69] ++
        [102,109,116,32] ++ setUint32le 16 ++ setUint16le 1 ++ setUint16le ch) ++
      (setUint32le sr ++
        (setUint32le (sr * ch * 2) ++
         setUint16le (ch * 2) ++ setUint16le 16 ++ [100,97,116,97] ++
         setUint32le pcm.length ++ pcm.buffer.take pcm.length)) := by
    simp [createWavBlob, wavHeader, List.append_assoc]
  rw [hsplit, readLE4_append _ _ _ (by simp [setUint32le, setUint16le]),
    readLE4_setUint32le _ _ hv]

theorem wavBlob_byteRate (pcm : Uint8ArrayView) (sr ch : ℕ) (hv : sr * ch * 2 < 4294967296) :
    readLE4 (createWavBlob pcm sr ch) 28 = sr * ch * 2 := by
  have hsplit : createWavBlob pcm sr ch =
      ([82, 73, 70, 70] ++ setUint32le (36 + pcm.length) ++ [87,65,86,69] ++
        [102,109,116,32] ++ setUint32le 16 ++ setUint16le 1 ++ setUint16le ch ++
        setUint32le sr) ++
      (setUint32le (sr * ch * 2) ++
        (setUint16le (ch * 2) ++ setUint16le 16 ++ [100,97,116,97] ++
         setUint32le pcm.length ++ pcm.buffer.take pcm.length)) := by
    simp [createWavBlob, wavHeader, List.append_assoc]
  rw [hsplit, readLE4_append _ _ _ (by simp [setUint32le, setUint16le]),
    readLE4_setUint32le _ _ hv]

theorem wavBlob_blockAlign (pcm : Uint8ArrayView) (sr ch : ℕ) (hv : ch * 2 < 65536) :
    readLE2 (createWavBlob pcm sr ch) 32 = ch * 2 := by
  have hsplit : createWavBlob pcm sr ch =
      ([82, 73, 70, 70] ++ setUint32le (36 + pcm.length) ++ [87,65,86,69] ++
        [102,109,116,32] ++ setUint32le 16 ++ setUint16le 1 ++ setUint16le ch ++
        setUint32le sr ++ setUint32le (sr * ch * 2)) ++
      (setUint16le (ch * 2) ++
        (setUint16le 16 ++ [100,97,116,97] ++
         setUint32le pcm.length ++ pcm.buffer.take pcm.length)) := by
    simp [createWavBlob, wavHeader, List.append_assoc]
  rw [hsplit, readLE2_append _ _ _ (by simp [setUint32le, setUint16le]),
    readLE2_setUint16le _ _ hv]

theorem wavBlob_bitsPerSample (pcm : Uint8ArrayView) (sr ch : ℕ) :
    readLE2 (createWavBlob pcm sr ch) 34 = 16 := by
  have hsplit : createWavBlob pcm sr ch =
      ([82, 73, 70, 70] ++ setUint32le (36 + pcm.length) ++ [87,65,86,69] ++
        [102,109,116,32] ++ setUint32le 16 ++ setUint16le 1 ++ setUint16le ch ++
        setUint32le sr ++ setUint32le (sr * ch * 2) ++ setUint16le (ch * 2)) ++
      (setUint16le 16 ++
        ([100,97,116,97] ++ setUint32le pcm.length ++ pcm.buffer.take pcm.length)) := by
    simp [createWavBlob, wavHeader, List.append_assoc]
  rw [hsplit, readLE2_append _ _ _ (by simp [setUint32le, setUint16le]),
    readLE2_setUint16le _ _ (by norm_num)]

theorem wavBlob_dataMarker (pcm : Uint8ArrayView) (sr ch : ℕ) :
    ((createWavBlob pcm sr ch).drop 36).take 4 = [100, 97, 116, 97] := by
  have hsplit : createWavBlob pcm sr ch =
      ([82, 73, 70, 70] ++ setUint32le (36 + pcm.length) ++ [87,65,86,69] ++
        [102,109,116,32] ++ setUint32le 16 ++ setUint16le 1 ++ setUint16le ch ++
        setUint32le sr ++ setUint32le (sr * ch * 2) ++ setUint16le (ch * 2) ++
        setUint16le 16) ++
      ([100,97,116,97] ++ (setUint32le pcm.length ++ pcm.buffer.take pcm.length)) := by
    simp [createWavBlob, wavHeader, List.append_assoc]
  rw [hsplit, drop_append_of_length _ _ _ (by simp [setUint32le, setUint16le])]
  rfl

theorem wavBlob_dataSize (pcm : Uint8ArrayView) (sr ch : ℕ) (hv : pcm.length < 4294967296) :
    readLE4 (createWavBlob pcm sr ch) 40 = pcm.length := by
  have hsplit : createWavBlob pcm sr ch =
      ([82, 73, 70, 70] ++ setUint32le (36 + pcm.length) ++ [87,65,86,69] ++
        [102,109,116,32] ++ setUint32le 16 ++ setUint16le 1 ++ setUint16le ch ++
        setUint32le sr ++ setUint32le (sr * ch * 2) ++ setUint16le (ch * 2) ++
        setUint16le 16 ++ [100,97,116,97]) ++
      (setUint32le pcm.length ++ pcm.buffer.take pcm.length) := by
    simp [createWavBlob, wavHeader, List.append_assoc]
  rw [hsplit, readLE4_append _ _ _ (by simp [setUint32le, setUint16le]),
    readLE4_setUint32le _ _ hv]

/-- C2: the 44-byte header of every produced blob carries, little-endian:
`RIFF`, `36 + len(B)`, `WAVE`, `fmt `, 16, audio format 1, `ch`, `sr`,
`sr*ch*2`, `ch*2`, 16, `data`, and `len(B)`, at their canonical offsets
(for field values representable in their 16- or 32-bit slots). -/
theorem createWavBlob_header_fields (B : List ℕ) (sr ch : ℕ)
    (hch : ch * 2 < 65536) (hsr : sr < 4294967296)
    (hbr : sr * ch * 2 < 4294967296) (hsz : 36 + B.length < 4294967296) :
    (createWavBlob (mkUint8Array B) sr ch).take 4 = [82, 73, 70, 70] ∧
    readLE4 (createWavBlob (mkUint8Array B) sr ch) 4 = 36 + B.length ∧
    ((createWavBlob (mkUint8Array B) sr ch).drop 8).take 4 = [87, 65, 86, 69] ∧
    ((createWavBlob (mkUint8Array B) sr ch).drop 12).take 4 = [102, 109, 116, 32] ∧
    readLE4 (createWavBlob (mkUint8Array B) sr ch) 16 = 16 ∧
    readLE2 (createWavBlob (mkUint8Array B) sr ch) 20 = 1 ∧
    readLE2 (createWavBlob (mkUint8Array B) sr ch) 22 = ch ∧
    readLE4 (createWavBlob (mkUint8Array B) sr ch) 24 = sr ∧
    readLE4 (createWavBlob (mkUint8Array B) sr ch) 28 = sr * ch * 2 ∧
    readLE2 (createWavBlob (mkUint8Array B) sr ch) 32 = ch * 2 ∧
    readLE2 (createWavBlob (mkUint8Array B) sr ch) 34 = 16 ∧
    ((createWavBlob (mkUint8Array B) sr ch).drop 36).take 4 = [100, 97, 116, 97] ∧
    readLE4 (createWavBlob (mkUint8Array B) sr ch) 40 = B.length := by
  refine ⟨wavBlob_riff _ _ _, ?_, wavBlob_wave _ _ _, wavBlob_fmtMarker _ _ _,
    wavBlob_subchunk1Size _ _ _, wavBlob_audioFormat _ _ _, ?_, ?_, ?_, ?_,
    wavBlob_bitsPerSample _ _ _, wavBlob_dataMarker _ _ _, ?_⟩
  · simpa [mkUint8Array] using
      wavBlob_chunkSize (mkUint8Array B) sr ch (by simpa [mkUint8Array] using hsz)
  · exact wavBlob_numChannels _ _ _ (by omega)
  · exact wavBlob_sampleRate _ _ _ hsr
  · exact wavBlob_byteRate _ _ _ hbr
  · exact wavBlob_blockAlign _ _ _ hch
  · simpa [mkUint8Array] using
      wavBlob_dataSize (mkUint8Array B) sr ch (by simp [mkUint8Array]; omega)

/-- C1: for every byte buffer `B` (even or odd length) and all `sr`, `ch`,
`createWavBlob` produces a blob of length exactly `44 + B.length` whose
bytes from offset 44 onward are `B` verbatim; the function performs no
evenness validation and accepts any byte count. -/
theorem createWavBlob_appends_payload (B : List ℕ) (sr ch : ℕ) :
    (createWavBlob (mkUint8Array B) sr ch).length = 44 + B.length ∧
    (createWavBlob (mkUint8Array B) sr ch).drop 44 = B := by
  constructor
  · rw [createWavBlob, List.length_append, wavHeader_length]
    simp [mkUint8Array]
  · rw [createWavBlob_drop_44]
    simp [mkUint8Array]

/-- C8: on the empty input, `createWavBlob` returns exactly the 44-byte
header, with ChunkSize (offset 4) equal to 36 and dataSize (offset 40)
equal to 0, for every `sr` and `ch`. -/
theorem createWavBlob_empty_input (sr ch : ℕ) :
    (createWavBlob (mkUint8Array []) sr ch).length = 44 ∧
    readLE4 (createWavBlob (mkUint8Array []) sr ch) 4 = 36 ∧
    readLE4 (createWavBlob (mkUint8Array []) sr ch) 40 = 0 := by
  refine ⟨?_, ?_, ?_⟩
  · rw [createWavBlob, List.length_append, wavHeader_length]
    simp [mkUint8Array]
  · simpa [mkUint8Array] using
      wavBlob_chunkSize (mkUint8Array []) sr ch (by simp [mkUint8Array])
  · simpa [mkUint8Array] using
      wavBlob_dataSize (mkUint8Array []) sr ch (by simp [mkUint8Array])

/-- C9: `createWavBlob` copies `pcmData.length` bytes from offset 0 of the
view's underlying buffer (`new Uint8Array(pcmData.buffer)`), not through
the view: for a full zero-offset view the data region equals the view's
contents, while for the view `⟨[1,2,3], 1, 2⟩` (contents `[2,3]`) the data
region is `[1,2]`, the first two bytes of the underlying buffer. -/
theorem createWavBlob_reads_underlying_buffer (v : Uint8ArrayView) (sr ch : ℕ) :
    (createWavBlob v sr ch).drop 44 = v.buffer.take v.length ∧
    (v.byteOffset = 0 → v.length = v.buffer.length →
      (createWavBlob v sr ch).drop 44 = viewToList v) ∧
    viewToList ⟨[1, 2, 3], 1, 2⟩ = [2, 3] ∧
    (createWavBlob ⟨[1, 2, 3], 1, 2⟩ sr ch).drop 44 = [1, 2] := by
  refine ⟨createWavBlob_drop_44 v sr ch, ?_, rfl, ?_⟩
  · intro h0 hfull
    rw [createWavBlob_drop_44, viewToList, h0, hfull]
    simp
  · rw [createWavBlob_drop_44]
    rfl

/-- C5: the concrete scenario: bytes `[0x00, 0x00, 0xFF, 0x7F]` decode (at
24000 Hz, 1 channel) to channel 0 = `[0.0, 0.999969482421875]`, and the
same bytes encode to a 48-byte WAV blob whose bytes 40–43 are
`04 00 00 00` (dataSize 4, little-endian). -/
theorem audio_pipeline_concrete_scenario :
    decodeAudioData (mkUint8Array [0, 0, 255, 127]) 24000 1 =
      .ok ⟨1, 2, 24000, [[0, 0.999969482421875]]⟩ ∧
    (createWavBlob (mkUint8Array [0, 0, 255, 127]) 24000 1).length = 48 ∧
    ((createWavBlob (mkUint8Array [0, 0, 255, 127]) 24000 1).drop 40).take 4 =
      [4, 0, 0, 0] := by
  refine ⟨?_, by decide, by decide⟩
  rw [decodeAudioData_ok (mkUint8Array [0, 0, 255, 127]) 24000 1 (by decide) (by decide)
    (by decide)]
  have hlen : (bytesToInt16s (mkUint8Array [0, 0, 255, 127]).buffer).length / 1 = 2 := by
    decide
  rw [hlen]
  have hs0 : jsSampleAt (bytesToInt16s (mkUint8Array [0, 0, 255, 127]).buffer) 0 = 0 := by
    have e : (bytesToInt16s (mkUint8Array [0, 0, 255, 127]).buffer).getD 0 0 = 0 := by decide
    rw [jsSampleAt, e]
    norm_num
  have hs1 : jsSampleAt (bytesToInt16s (mkUint8Array [0, 0, 255, 127]).buffer) 1 =
      0.999969482421875 := by
    have e : (bytesToInt16s (mkUint8Array [0, 0, 255, 127]).buffer).getD 1 0 = 32767 := by
      decide
    rw [jsSampleAt, e]
    norm_num
  simp [List.range_succ, hs0, hs1]

theorem getD_map_range {α : Type} (f : ℕ → α) (n k : ℕ) (hk : k < n) (d : α) :
    ((List.range n).map f).getD k d = f k := by
  rw [List.getD_eq_getElem?_getD, List.getElem?_map, List.getElem?_range hk]
  rfl

/-- C3: whenever `decodeAudioData` succeeds, the output sample at frame `i`
of channel `c` is exactly `v / 32768` for the 16-bit sample `v` it reads at
interleaved index `i * numChannels + c`; `v = -32768` gives exactly `-1`,
`v = 0` gives exactly `0`, and every output sample lies in
`[-1, 32767/32768]`. -/
theorem decodeAudioData_sample_normalization (data : Uint8ArrayView) (sr ch : ℕ)
    (buf : AudioBufferModel) (hok : decodeAudioData data sr ch = .ok buf)
    (c i : ℕ) (hc : c < ch) (hi : i < buf.frames) :
    (buf.channelData.getD c []).getD i 0 =
      (((bytesToInt16s data.buffer).getD (i * ch + c) 0 : ℤ) : ℚ) / 32768 ∧
    ((bytesToInt16s data.buffer).getD (i * ch + c) 0 = -32768 →
      (buf.channelData.getD c []).getD i 0 = -1) ∧
    ((bytesToInt16s data.buffer).getD (i * ch + c) 0 = 0 →
      (buf.channelData.getD c []).getD i 0 = 0) ∧
    -1 ≤ (buf.channelData.getD c []).getD i 0 ∧
    (buf.channelData.getD c []).getD i 0 ≤ 32767 / 32768 := by
  have hch : ch ≠ 0 := by omega
  have h2 : data.buffer.length % 2 = 0 := by
    by_contra h
    rw [decodeAudioData_oddLength data sr ch (by omega)] at hok
    exact Except.noConfusion hok
  have hL : (bytesToInt16s data.buffer).length / ch ≠ 0 := by
    by_contra h
    rw [decodeAudioData_notSupported data sr ch h2 (Or.inr h)] at hok
    exact Except.noConfusion hok
  rw [decodeAudioData_ok data sr ch h2 hch hL] at hok
  have hbuf : buf = ⟨ch, (bytesToInt16s data.buffer).length / ch, sr,
      (List.range ch).map fun c =>
        (List.range ((bytesToInt16s data.buffer).length / ch)).map
          fun i => jsSampleAt (bytesToInt16s data.buffer) (i * ch + c)⟩ :=
    (Except.ok.inj hok).symm
  subst hbuf
  have hi' : i < (bytesToInt16s data.buffer).length / ch := hi
  dsimp only
  simp only [getD_map_range _ _ _ hc, getD_map_range _ _ _ hi', jsSampleAt]
  have hb := bytesToInt16s_getD_bounds data.buffer (i * ch + c)
  refine ⟨trivial, ?_, ?_, ?_, ?_⟩
  · intro hv
    rw [hv]
    norm_num
  · intro hv
    rw [hv]
    norm_num
  · rw [le_div_iff₀ (by norm_num : (0:ℚ) < 32768)]
    have : ((-32768 : ℤ) : ℚ) ≤ ((bytesToInt16s data.buffer).getD (i * ch + c) 0 : ℚ) := by
      exact_mod_cast hb.1
    push_cast at this ⊢
    linarith
  · rw [div_le_div_iff₀ (by norm_num : (0:ℚ) < 32768) (by norm_num : (0:ℚ) < 32768)]
    have : (((bytesToInt16s data.buffer).getD (i * ch + c) 0 : ℤ) : ℚ) ≤ ((32767 : ℤ) : ℚ) := by
      exact_mod_cast hb.2
    push_cast at this ⊢
    linarith

/-- C4 (counterexample): the byte buffer `[0,0,0]` has length
`2*1*1 + 1` (`numChannels = 1`, `N = 1`, `r = 1`), yet `decodeAudioData`
raises a `RangeError` (from the `Int16Array` construction) instead of
producing a 1-frame buffer without error. -/
theorem decodeAudioData_partial_frame_error :
    decodeAudioData (mkUint8Array [0, 0, 0]) 24000 1 = .error .rangeError :=
  decodeAudioData_oddLength _ _ _ (by decide)

/-- C4 (amended): for a buffer of length `2*numChannels*N + r` with
`0 < r < 2*numChannels`: when `r` is odd (so the byte length is odd) the
`Int16Array` construction raises a `RangeError`; when `r` is even and
`N ≥ 1` the call succeeds and produces exactly `N` frames, the partial
frame being discarded (by the frame-count truncation at the context
boundary, not by the converter's arithmetic); when `r` is even and `N = 0`
the context rejects the zero-length buffer with a `NotSupportedError`. -/
theorem decodeAudioData_partial_frame_behavior (B : List ℕ) (sr ch N r : ℕ)
    (hlen : B.length = 2 * ch * N + r) (hr0 : 0 < r) (hr1 : r < 2 * ch) :
    (r % 2 = 1 → decodeAudioData (mkUint8Array B) sr ch = .error .rangeError) ∧
    (r % 2 = 0 → 1 ≤ N →
      decodeAudioData (mkUint8Array B) sr ch =
        .ok ⟨ch, N, sr, (List.range ch).map fun c =>
          (List.range N).map fun i => jsSampleAt (bytesToInt16s B) (i * ch + c)⟩) ∧
    (r % 2 = 0 → N = 0 →
      decodeAudioData (mkUint8Array B) sr ch = .error .notSupportedError) := by
  have hch : ch ≠ 0 := by omega
  have hbuf : (mkUint8Array B).buffer = B := rfl
  have hlen' : B.length = 2 * (ch * N) + r := by rw [hlen]; ring
  refine ⟨?_, ?_, ?_⟩
  · intro hr
    exact decodeAudioData_oddLength _ _ _ (by rw [hbuf]; omega)
  · intro hr hN
    have h2 : (mkUint8Array B).buffer.length % 2 = 0 := by rw [hbuf]; omega
    have hs : (bytesToInt16s B).length = ch * N + r / 2 := by
      rw [bytesToInt16s_length]
      omega
    have hL : (bytesToInt16s B).length / ch = N := by
      rw [hs, show ch * N + r / 2 = r / 2 + ch * N by ring,
        Nat.add_mul_div_left _ _ (by omega : 0 < ch), Nat.div_eq_of_lt (by omega)]
      omega
    rw [decodeAudioData_ok (mkUint8Array B) sr ch h2 hch (by rw [hbuf, hL]; omega)]
    rw [hbuf, hL]
  · intro hr hN
    subst hN
    have h2 : (mkUint8Array B).buffer.length % 2 = 0 := by rw [hbuf]; omega
    have hs : (bytesToInt16s B).length = r / 2 := by
      rw [bytesToInt16s_length]
      omega
    refine decodeAudioData_notSupported _ _ _ h2 (Or.inr ?_)
    rw [hbuf, hs]
    exact Nat.div_eq_of_lt (by omega)

/-- C10: `decodeAudioData` builds its `Int16Array` over the input's whole
underlying buffer and computes `frameCount` as the exact, non-floored
quotient: an odd underlying byte length fails with `RangeError` rather than
truncating; a 16-bit sample count that is not a multiple of `numChannels`
makes the `frameCount` handed to `createBuffer` a non-integer; and the
result depends only on the underlying buffer, not on the view's offset or
length. -/
theorem decodeAudioData_frameCount_exact (data : Uint8ArrayView) (sr ch : ℕ) :
    (data.buffer.length % 2 = 1 → decodeAudioData data sr ch = .error .rangeError) ∧
    (ch ≠ 0 → ¬ ch ∣ (bytesToInt16s data.buffer).length →
      ¬ ∃ n : ℕ, frameCountOf data ch = (n : ℚ)) ∧
    decodeAudioData data sr ch = decodeAudioData (mkUint8Array data.buffer) sr ch := by
  refine ⟨fun h => decodeAudioData_oddLength data sr ch h, ?_, rfl⟩
  intro hch hdvd
  rintro ⟨n, hn⟩
  rw [frameCountOf, div_eq_iff (by exact_mod_cast hch)] at hn
  have : (bytesToInt16s data.buffer).length = n * ch := by exact_mod_cast hn
  exact hdvd ⟨n, by rw [this, Nat.mul_comm]⟩

theorem charToSextet_sextetToChar : ∀ d : ℕ, d < 64 → charToSextet (sextetToChar d) = some d := by
  decide

theorem sextetToChar_ne_61 : ∀ d : ℕ, d < 64 → sextetToChar d ≠ 61 := by
  decide

theorem sextetToChar_not_ws : ∀ d : ℕ, d < 64 → isB64Whitespace (sextetToChar d) = false := by
  decide

theorem bytesToSextets_lt64 :
    ∀ l : List ℕ, (∀ b ∈ l, b < 256) → ∀ d ∈ bytesToSextets l, d < 64
  | [], _, d, hd => by simp [bytesToSextets] at hd
  | [a], h, d, hd => by
    have ha : a < 256 := h a (by simp)
    simp only [bytesToSextets, List.mem_cons, List.not_mem_nil, or_false] at hd
    rcases hd with rfl | rfl <;> omega
  | [a, b], h, d, hd => by
    have ha : a < 256 := h a (by simp)
    have hb : b < 256 := h b (by simp)
    simp only [bytesToSextets, List.mem_cons, List.not_mem_nil, or_false] at hd
    rcases hd with rfl | rfl | rfl <;> omega
  | a :: b :: c :: rest, h, d, hd => by
    have ha : a < 256 := h a (by simp)
    have hb : b < 256 := h b (by simp)
    have hc : c < 256 := h c (by simp)
    simp only [bytesToSextets, List.mem_cons] at hd
    rcases hd with rfl | rfl | rfl | rfl | hd
    · omega
    · omega
    · omega
    · omega
    · exact bytesToSextets_lt64 rest (fun x hx => h x (by simp [hx])) d hd

theorem bytesToSextets_length_mod4 :
    ∀ l : List ℕ, (bytesToSextets l).length % 4 ≠ 1
  | [] => by simp [bytesToSextets]
  | [_] => by simp [bytesToSextets]
  | [_, _] => by simp [bytesToSextets]
  | a :: b :: c :: rest => by
    have ih := bytesToSextets_length_mod4 rest
    simp only [bytesToSextets, List.length_cons]
    omega

theorem bytesOfSextets_bytesToSextets :
    ∀ l : List ℕ, (∀ b ∈ l, b < 256) → bytesOfSextets (bytesToSextets l) = l
  | [], _ => rfl
  | [a], h => by
    have ha : a < 256 := h a (by simp)
    show bytesOfSextets [a / 4, a % 4 * 16] = [a]
    show [a / 4 * 4 + a % 4 * 16 / 16] = [a]
    have : a / 4 * 4 + a % 4 * 16 / 16 = a := by omega
    rw [this]
  | [a, b], h => by
    have ha : a < 256 := h a (by simp)
    have hb : b < 256 := h b (by simp)
    show bytesOfSextets [a / 4, a % 4 * 16 + b / 16, b % 16 * 4] = [a, b]
    show [(a / 4) * 4 + (a % 4 * 16 + b / 16) / 16,
      (a % 4 * 16 + b / 16) % 16 * 16 + b % 16 * 4 / 4] = [a, b]
    have e1 : (a / 4) * 4 + (a % 4 * 16 + b / 16) / 16 = a := by omega
    have e2 : (a % 4 * 16 + b / 16) % 16 * 16 + b % 16 * 4 / 4 = b := by omega
    rw [e1, e2]
  | a :: b :: c :: rest, h => by
    have ha : a < 256 := h a (by simp)
    have hb : b < 256 := h b (by simp)
    have hc : c < 256 := h c (by simp)
    have ih := bytesOfSextets_bytesToSextets rest (fun x hx => h x (by simp [hx]))
    show bytesOfSextets ((a / 4) :: (a % 4 * 16 + b / 16) :: (b % 16 * 4 + c / 64) ::
      (c % 64) :: bytesToSextets rest) = a :: b :: c :: rest
    show ((a / 4) * 4 + (a % 4 * 16 + b / 16) / 16) ::
      ((a % 4 * 16 + b / 16) % 16 * 16 + (b % 16 * 4 + c / 64) / 4) ::
      ((b % 16 * 4 + c / 64) % 4 * 64 + c % 64) ::
      bytesOfSextets (bytesToSextets rest) = a :: b :: c :: rest
    have e1 : (a / 4) * 4 + (a % 4 * 16 + b / 16) / 16 = a := by omega
    have e2 : (a % 4 * 16 + b / 16) % 16 * 16 + (b % 16 * 4 + c / 64) / 4 = b := by omega
    have e3 : (b % 16 * 4 + c / 64) % 4 * 64 + c % 64 = c := by omega
    rw [e1, e2, e3, ih]

theorem sextetsOfChars_map :
    ∀ ds : List ℕ, (∀ d ∈ ds, d < 64) → sextetsOfChars (ds.map sextetToChar) = some ds
  | [], _ => rfl
  | d :: rest, h => by
    have hd : d < 64 := h d (by simp)
    have ih := sextetsOfChars_map rest (fun x hx => h x (by simp [hx]))
    simp only [List.map_cons, sextetsOfChars, charToSextet_sextetToChar d hd, ih]

theorem stripB64Padding_no_pad (A : List ℕ) (hA : A.getLast? ≠ some 61) :
    stripB64Padding A = A := by
  unfold stripB64Padding
  by_cases h : A.length % 4 ≠ 0
  · rw [if_pos h]
  · rw [if_neg h, if_neg hA]

theorem stripB64Padding_append_one (A : List ℕ) (h : (A.length + 1) % 4 = 0)
    (hA : A.getLast? ≠ some 61) :
    stripB64Padding (A ++ [61]) = A := by
  unfold stripB64Padding
  have hlen : ¬((A ++ [61]).length % 4 ≠ 0) := by
    simp only [List.length_append, List.length_cons, List.length_nil]
    omega
  rw [if_neg hlen, if_pos (List.getLast?_concat A), List.dropLast_concat, if_neg hA]

theorem stripB64Padding_append_two (A : List ℕ) (h : (A.length + 2) % 4 = 0) :
    stripB64Padding (A ++ [61, 61]) = A := by
  have e : A ++ [61, 61] = (A ++ [61]) ++ [61] := by simp
  unfold stripB64Padding
  rw [e]
  have hlen : ¬(((A ++ [61]) ++ [61]).length % 4 ≠ 0) := by
    simp only [List.length_append, List.length_cons, List.length_nil]
    omega
  rw [if_neg hlen, if_pos (List.getLast?_concat (A ++ [61])), List.dropLast_concat,
    if_pos (List.getLast?_concat A), List.dropLast_concat]

theorem b64chars_getLast_ne61 (X : List ℕ) (hX : ∀ b ∈ X, b < 256) :
    ((bytesToSextets X).map sextetToChar).getLast? ≠ some 61 := by
  intro hlast
  have hmem : (61 : ℕ) ∈ (bytesToSextets X).map sextetToChar :=
    List.mem_of_mem_getLast? hlast
  obtain ⟨d, hd, h61⟩ := List.mem_map.mp hmem
  exact sextetToChar_ne_61 d (bytesToSextets_lt64 X hX d hd) h61

theorem stripB64Padding_base64Encode (X : List ℕ) (hX : ∀ b ∈ X, b < 256) :
    stripB64Padding (base64Encode X) = (bytesToSextets X).map sextetToChar := by
  have hne := b64chars_getLast_ne61 X hX
  have hmod := bytesToSextets_length_mod4 X
  have hlenmap : ((bytesToSextets X).map sextetToChar).length = (bytesToSextets X).length :=
    List.length_map _ _
  by_cases h2 : ((bytesToSextets X).map sextetToChar).length % 4 = 2
  · have he : base64Encode X = (bytesToSextets X).map sextetToChar ++ [61, 61] := by
      unfold base64Encode
      rw [if_pos h2]
    rw [he, stripB64Padding_append_two _ (by omega)]
  · by_cases h3 : ((bytesToSextets X).map sextetToChar).length % 4 = 3
    · have he : base64Encode X = (bytesToSextets X).map sextetToChar ++ [61] := by
        unfold base64Encode
        rw [if_neg h2, if_pos h3]
      rw [he, stripB64Padding_append_one _ (by omega) hne]
    · have he : base64Encode X = (bytesToSextets X).map sextetToChar := by
        unfold base64Encode
        rw [if_neg h2, if_neg h3]
      rw [he, stripB64Padding_no_pad _ hne]

theorem base64Encode_filter_ws (X : List ℕ) (hX : ∀ b ∈ X, b < 256) :
    (base64Encode X).filter (fun c => ! isB64Whitespace c) = base64Encode X := by
  apply List.filter_eq_self.mpr
  intro c hc
  have hmem : (∃ d ∈ bytesToSextets X, sextetToChar d = c) ∨ c = 61 := by
    simp only [base64Encode] at hc
    split_ifs at hc
    · rcases List.mem_append.mp hc with h | h
      · exact Or.inl (List.mem_map.mp h)
      · right
        simpa using h
    · rcases List.mem_append.mp hc with h | h
      · exact Or.inl (List.mem_map.mp h)
      · right
        simpa using h
    · exact Or.inl (List.mem_map.mp hc)
  rcases hmem with ⟨d, hd, rfl⟩ | rfl
  · rw [sextetToChar_not_ws d (bytesToSextets_lt64 X hX d hd)]
    rfl
  · decide

/-- C6: decoding a reference base64 encoding of any byte sequence `X`
returns exactly `X`: the resulting `Uint8Array` has length `X.length` and
every byte value is preserved unchanged. -/
theorem decode_base64Encode_roundtrip (X : List ℕ) (hX : ∀ b ∈ X, b < 256) :
    decode (base64Encode X) = .ok (mkUint8Array X) := by
  have hlt := bytesToSextets_lt64 X hX
  unfold decode atob
  rw [base64Encode_filter_ws X hX, stripB64Padding_base64Encode X hX]
  have hmod : ¬(((bytesToSextets X).map sextetToChar).length % 4 = 1) := by
    rw [List.length_map]
    exact bytesToSextets_length_mod4 X
  rw [if_neg hmod, sextetsOfChars_map _ hlt]
  dsimp only
  rw [bytesOfSextets_bytesToSextets X hX]
  have hid : X.map (· % 256) = X := by
    have h : X.map (· % 256) = X.map id :=
      List.map_congr_left (fun b hb => Nat.mod_eq_of_lt (hX b hb))
    rw [h, List.map_id]
  show Except.ok (mkUint8Array (X.map (· % 256))) = Except.ok (mkUint8Array X)
  rw [hid]

theorem foldl_writeChannel_byteArrays (samples : List ℤ) (numCh T base : ℕ) :
    ∀ (cs : List ℕ) (hh : JsHeap),
      (cs.foldl (fun hh c => writeChannel samples numCh T hh (base + c) c) hh).byteArrays =
        hh.byteArrays
  | [], _ => rfl
  | c :: cs, hh => by
    rw [List.foldl_cons, foldl_writeChannel_byteArrays samples numCh T base cs]
    rfl

theorem foldl_writeChannel_floats_length (samples : List ℤ) (numCh T base : ℕ) :
    ∀ (cs : List ℕ) (hh : JsHeap),
      (cs.foldl (fun hh c => writeChannel samples numCh T hh (base + c) c)
        hh).floatArrays.length = hh.floatArrays.length
  | [], _ => rfl
  | c :: cs, hh => by
    rw [List.foldl_cons, foldl_writeChannel_floats_length samples numCh T base cs]
    simp [writeChannel]

theorem foldl_writeChannel_getElem? (samples : List ℤ) (numCh T base : ℕ)
    (init : List ℚ) :
    ∀ (k : ℕ) (h1 : JsHeap), k ≤ numCh →
      (∀ c, c < numCh → h1.floatArrays[base + c]? = some init) →
      base + numCh ≤ h1.floatArrays.length →
      ∀ j, ((List.range k).foldl
          (fun hh c => writeChannel samples numCh T hh (base + c) c) h1).floatArrays[j]? =
        if base ≤ j ∧ j < base + k then
          some (channelLoop samples numCh (j - base) T init)
        else h1.floatArrays[j]? := by
  intro k
  induction k with
  | zero =>
    intro h1 hk hbase hlen j
    simp only [List.range_zero, List.foldl_nil]
    rw [if_neg (by omega)]
  | succ k ih =>
    intro h1 hk hbase hlen j
    rw [List.range_succ, List.foldl_append, List.foldl_cons, List.foldl_nil]
    have ihk := ih h1 (by omega) hbase hlen
    have hflen : ((List.range k).foldl
        (fun hh c => writeChannel samples numCh T hh (base + c) c) h1).floatArrays.length =
        h1.floatArrays.length :=
      foldl_writeChannel_floats_length samples numCh T base (List.range k) h1
    have hread : ((List.range k).foldl
        (fun hh c => writeChannel samples numCh T hh (base + c) c)
        h1).floatArrays.getD (base + k) [] = init := by
      rw [List.getD_eq_getElem?_getD, ihk (base + k), if_neg (by omega),
        hbase k (by omega)]
      rfl
    show ((((List.range k).foldl _ h1).floatArrays.set (base + k)
        (channelLoop samples numCh k T
          (((List.range k).foldl _ h1).floatArrays.getD (base + k) [])))[j]? = _)
    rw [hread]
    rcases eq_or_ne j (base + k) with rfl | hne
    · rw [List.getElem?_set_self (by rw [hflen]; omega)]
      rw [if_pos (by omega)]
      have e : base + k - base = k := by omega
      rw [e]
    · rw [List.getElem?_set_ne (Ne.symm hne), ihk j]
      rcases Nat.lt_or_ge j (base + k) with h | h
      · by_cases hb : base ≤ j
        · rw [if_pos ⟨hb, h⟩, if_pos ⟨hb, by omega⟩]
        · rw [if_neg (by omega), if_neg (by omega)]
      · rw [if_neg (by omega), if_neg (by omega)]

theorem observeDecode_spec (h : JsHeap) (r sr ch : ℕ) :
    observeDecode h r sr ch =
      (decodeAudioData (mkUint8Array (h.byteArrays.getD r [])) sr ch).map
        fun buf => (buf.numberOfChannels, buf.frames, buf.sampleRate, buf.channelData) := by
  have hbuf : (mkUint8Array (h.byteArrays.getD r [])).buffer = h.byteArrays.getD r [] := rfl
  have hfl : ⌊((bytesToInt16s (h.byteArrays.getD r [])).length : ℚ) / (ch : ℚ)⌋₊ =
      (bytesToInt16s (h.byteArrays.getD r [])).length / ch := by
    rw [Nat.floor_div_nat, Nat.floor_natCast]
  by_cases hodd : (h.byteArrays.getD r []).length % 2 = 1
  · rw [decodeAudioData_oddLength _ _ _ (by rw [hbuf]; omega)]
    simp only [observeDecode, decodeAudioDataHeap]
    rw [if_pos (by omega)]
    rfl
  · have h2 : (h.byteArrays.getD r []).length % 2 = 0 := by omega
    by_cases hz : ch = 0 ∨ (bytesToInt16s (h.byteArrays.getD r [])).length / ch = 0
    · rw [decodeAudioData_notSupported _ _ _ (by rw [hbuf]; omega) (by rw [hbuf]; exact hz)]
      simp only [observeDecode, decodeAudioDataHeap]
      rw [if_neg (by omega), hfl, if_pos hz]
      rfl
    · push_neg at hz
      rw [decodeAudioData_ok _ _ _ (by rw [hbuf]; omega) hz.1 hz.2]
      simp only [observeDecode, decodeAudioDataHeap, hbuf]
      rw [if_neg (by omega), hfl, if_neg (by push_neg; exact hz)]
      have hLT : (bytesToInt16s (h.byteArrays.getD r [])).length / ch ≤
          ⌈((bytesToInt16s (h.byteArrays.getD r [])).length : ℚ) / (ch : ℚ)⌉₊ := by
        rw [← hfl]
        exact Nat.floor_le_ceil _
      dsimp only [Except.map]
      congr 1
      refine Prod.ext rfl (Prod.ext rfl (Prod.ext rfl ?_))
      dsimp only
      rw [List.map_map]
      apply List.map_congr_left
      intro c hc
      have hclt : c < ch := List.mem_range.mp hc
      have hfold := foldl_writeChannel_getElem?
        (bytesToInt16s (h.byteArrays.getD r [])) ch
        ⌈((bytesToInt16s (h.byteArrays.getD r [])).length : ℚ) / (ch : ℚ)⌉₊
        h.floatArrays.length
        (List.replicate ((bytesToInt16s (h.byteArrays.getD r [])).length / ch) 0)
        ch
        ⟨h.byteArrays, h.floatArrays ++ List.replicate ch
          (List.replicate ((bytesToInt16s (h.byteArrays.getD r [])).length / ch) 0)⟩
        (le_refl ch)
        (by
          intro c' hc'
          show (h.floatArrays ++ List.replicate ch
            (List.replicate ((bytesToInt16s (h.byteArrays.getD r [])).length / ch) 0))[
              h.floatArrays.length + c']? = _
          rw [List.getElem?_append_right (by omega)]
          have e : h.floatArrays.length + c' - h.floatArrays.length = c' := by omega
          rw [e, List.getElem?_replicate, if_pos hc'])
        (by
          show h.floatArrays.length + ch ≤
            (h.floatArrays ++ List.replicate ch _).length
          simp)
        (h.floatArrays.length + c)
      dsimp only [Function.comp]
      rw [List.getD_eq_getElem?_getD, hfold, if_pos (by omega)]
      have e : h.floatArrays.length + c - h.floatArrays.length = c := by omega
      rw [e]
      exact channelLoop_eq_map _ _ _ _ _ hLT

theorem decodeAudioDataHeap_preserves_bytes (h : JsHeap) (r sr ch : ℕ)
    (h' : JsHeap) (buf : AudioBufferRef)
    (hok : decodeAudioDataHeap h r sr ch = .ok (h', buf)) :
    h'.byteArrays = h.byteArrays := by
  simp only [decodeAudioDataHeap] at hok
  split at hok
  · exact Except.noConfusion hok
  · split at hok
    · exact Except.noConfusion hok
    · have hp := Except.ok.inj hok
      have hh' : h' = (List.range ch).foldl
          (fun hh c => writeChannel (bytesToInt16s (h.byteArrays.getD r [])) ch
            ⌈((bytesToInt16s (h.byteArrays.getD r [])).length : ℚ) / (ch : ℚ)⌉₊ hh
            (h.floatArrays.length + c) c)
          ⟨h.byteArrays, h.floatArrays ++ List.replicate ch
            (List.replicate ⌊((bytesToInt16s (h.byteArrays.getD r [])).length : ℚ) /
              (ch : ℚ)⌋₊ 0)⟩ :=
        (congrArg Prod.fst hp).symm
      rw [hh', foldl_writeChannel_byteArrays]

/-- C7: `decodeAudioData` is a pure, deterministic mapping given a
conformant context: two calls whose input byte arrays hold identical
contents produce identical outcomes and identical buffer contents,
whatever the rest of the heap looks like; and a call never mutates any
byte array — in particular the input buffer is unchanged. -/
theorem decodeAudioData_pure_deterministic (h g : JsHeap) (r1 r2 sr ch : ℕ)
    (hin : g.byteArrays.getD r2 [] = h.byteArrays.getD r1 []) :
    observeDecode g r2 sr ch = observeDecode h r1 sr ch ∧
    ∀ (h' : JsHeap) (buf : AudioBufferRef),
      decodeAudioDataHeap h r1 sr ch = .ok (h', buf) → h'.byteArrays = h.byteArrays := by
  constructor
  · rw [observeDecode_spec, observeDecode_spec, hin]
  · intro h' buf hok
    exact decodeAudioDataHeap_preserves_bytes h r1 sr ch h' buf hok

/-- Witness for C2 at `B = [1,2]`, `sr = 24000`, `ch = 1`. -/
theorem createWavBlob_header_fields_check :
    (createWavBlob (mkUint8Array [1, 2]) 24000 1).take 4 = [82, 73, 70, 70] ∧
    readLE4 (createWavBlob (mkUint8Array [1, 2]) 24000 1) 4 = 38 ∧
    ((createWavBlob (mkUint8Array [1, 2]) 24000 1).drop 8).take 4 = [87, 65, 86, 69] ∧
    ((createWavBlob (mkUint8Array [1, 2]) 24000 1).drop 12).take 4 = [102, 109, 116, 32] ∧
    readLE4 (createWavBlob (mkUint8Array [1, 2]) 24000 1) 16 = 16 ∧
    readLE2 (createWavBlob (mkUint8Array [1, 2]) 24000 1) 20 = 1 ∧
    readLE2 (createWavBlob (mkUint8Array [1, 2]) 24000 1) 22 = 1 ∧
    readLE4 (createWavBlob (mkUint8Array [1, 2]) 24000 1) 24 = 24000 ∧
    readLE4 (createWavBlob (mkUint8Array [1, 2]) 24000 1) 28 = 48000 ∧
    readLE2 (createWavBlob (mkUint8Array [1, 2]) 24000 1) 32 = 2 ∧
    readLE2 (createWavBlob (mkUint8Array [1, 2]) 24000 1) 34 = 16 ∧
    ((createWavBlob (mkUint8Array [1, 2]) 24000 1).drop 36).take 4 = [100, 97, 116, 97] ∧
    readLE4 (createWavBlob (mkUint8Array [1, 2]) 24000 1) 40 = 2 :=
  createWavBlob_header_fields [1, 2] 24000 1 (by decide) (by decide) (by decide) (by decide)

/-- Witness for C3 at input bytes `[0x00, 0x80]` (the sample `-32768`),
one channel, frame 0. -/
theorem decodeAudioData_sample_normalization_check :
    ((AudioBufferModel.mk 1 1 24000 [[-1]]).channelData.getD 0 []).getD 0 0 =
      (((bytesToInt16s (mkUint8Array [0, 128]).buffer).getD (0 * 1 + 0) 0 : ℤ) : ℚ) / 32768 ∧
    ((bytesToInt16s (mkUint8Array [0, 128]).buffer).getD (0 * 1 + 0) 0 = -32768 →
      ((AudioBufferModel.mk 1 1 24000 [[-1]]).channelData.getD 0 []).getD 0 0 = -1) ∧
    ((bytesToInt16s (mkUint8Array [0, 128]).buffer).getD (0 * 1 + 0) 0 = 0 →
      ((AudioBufferModel.mk 1 1 24000 [[-1]]).channelData.getD 0 []).getD 0 0 = 0) ∧
    -1 ≤ ((AudioBufferModel.mk 1 1 24000 [[-1]]).channelData.getD 0 []).getD 0 0 ∧
    ((AudioBufferModel.mk 1 1 24000 [[-1]]).channelData.getD 0 []).getD 0 0 ≤ 32767 / 32768 :=
  decodeAudioData_sample_normalization (mkUint8Array [0, 128]) 24000 1
    (AudioBufferModel.mk 1 1 24000 [[-1]])
    (by
      rw [decodeAudioData_ok (mkUint8Array [0, 128]) 24000 1 (by decide) (by decide)
        (by decide)]
      have h1 : (bytesToInt16s (mkUint8Array [0, 128]).buffer).length / 1 = 1 := by decide
      have h2 : jsSampleAt (bytesToInt16s (mkUint8Array [0, 128]).buffer) 0 = -1 := by
        have e : (bytesToInt16s (mkUint8Array [0, 128]).buffer).getD 0 0 = -32768 := by
          decide
        rw [jsSampleAt, e]
        norm_num
      rw [h1]
      simp [List.range_succ, h2])
    0 0 (by decide) (by decide)

/-- Witness for C4 (amended) at `B = [0,0,0,0,0,0]`, `ch = 2`, `N = 1`,
`r = 2` (an even trailing remainder, one full frame). -/
theorem decodeAudioData_partial_frame_behavior_check :
    (2 % 2 = 1 →
      decodeAudioData (mkUint8Array [0, 0, 0, 0, 0, 0]) 24000 2 = .error .rangeError) ∧
    (2 % 2 = 0 → 1 ≤ 1 →
      decodeAudioData (mkUint8Array [0, 0, 0, 0, 0, 0]) 24000 2 =
        .ok ⟨2, 1, 24000, (List.range 2).map fun c =>
          (List.range 1).map fun i =>
            jsSampleAt (bytesToInt16s [0, 0, 0, 0, 0, 0]) (i * 2 + c)⟩) ∧
    (2 % 2 = 0 → 1 = 0 →
      decodeAudioData (mkUint8Array [0, 0, 0, 0, 0, 0]) 24000 2 =
        .error .notSupportedError) :=
  decodeAudioData_partial_frame_behavior [0, 0, 0, 0, 0, 0] 24000 2 1 2
    (by decide) (by decide) (by decide)

/-- Witness for C6 at `X = [77, 97, 110]` (the bytes of `Man`, whose
base64 encoding is `TWFu`). -/
theorem decode_base64Encode_roundtrip_check :
    decode (base64Encode [77, 97, 110]) = .ok (mkUint8Array [77, 97, 110]) :=
  decode_base64Encode_roundtrip [77, 97, 110] (by decide)

/-- Witness for C7: two heaps holding the same input bytes `[0, 0]` at
different references, with unrelated other objects, observe identically;
and the byte arrays survive a successful call unchanged. -/
theorem decodeAudioData_pure_deterministic_check :
    observeDecode (JsHeap.mk [[9, 9], [0, 0]] [[5]]) 1 24000 1 =
      observeDecode (JsHeap.mk [[0, 0]] []) 0 24000 1 ∧
    ∀ (h' : JsHeap) (buf : AudioBufferRef),
      decodeAudioDataHeap (JsHeap.mk [[0, 0]] []) 0 24000 1 = .ok (h', buf) →
        h'.byteArrays = (JsHeap.mk [[0, 0]] []).byteArrays :=
  decodeAudioData_pure_deterministic (JsHeap.mk [[0, 0]] [])
    (JsHeap.mk [[9, 9], [0, 0]] [[5]]) 0 1 24000 1 (by decide)
